import Mathlib

/-!
Verification development for the yt-agent repository.

The Python sources are shallowly embedded over `List Char` (Python `str`
values are finite character sequences; `len`, `in`, `split`, `strip` and
`lower` are modelled by executable Lean functions below).  Remote services
(the LLM client, the cache service) and the Python interpreter invoked by
`exec` are external collaborators: they are modelled as explicit parameters
describing their observable behaviour, so that every function of the
repository itself is a total executable Lean definition.
-/

/-- ASCII whitespace characters removed by Python `str.strip()`
(space, tab, newline, carriage return, vertical tab, form feed). -/
def isPySpace (c : Char) : Bool :=
  c = ' ' || c = '\t' || c = '\n' || c = '\r' || c = '\x0b' || c = '\x0c'

/-- Python `str.strip()`: drop whitespace from both ends. -/
def pyStrip (l : List Char) : List Char :=
  ((l.dropWhile isPySpace).reverse.dropWhile isPySpace).reverse

/-- Python's `sub in s` membership test for strings: some occurrence of
`sub` starts at some position of `s`.  The empty string is contained in
every string, as in Python. -/
def containsSub (sub : List Char) : List Char → Bool
  | [] => sub.isEmpty
  | c :: rest => sub.isPrefixOf (c :: rest) || containsSub sub rest

/-- Helper for `splitOnL`: prepend a character to the first piece of a
split result. -/
def consHead (d : Char) : List (List Char) → List (List Char)
  | [] => [[d]]
  | piece :: more => (d :: piece) :: more

/-- Python `str.split(sep)` for a fixed separator: scan left to right,
cutting at each non-overlapping occurrence of `sep`.  Python rejects an
empty separator; for `sep = []` this function never cuts. -/
def splitOnL (sep : List Char) : List Char → List (List Char)
  | [] => [[]]
  | d :: rest =>
    if h : sep ≠ [] ∧ sep.isPrefixOf (d :: rest) = true then
      [] :: splitOnL sep ((d :: rest).drop sep.length)
    else
      consHead d (splitOnL sep rest)
termination_by s => s.length
decreasing_by
  · simp only [List.length_drop, List.length_cons]
    have hs : 0 < sep.length := List.length_pos.mpr h.1
    omega
  · simp

/-- Python `str.lower()` restricted to ASCII letters. -/
def asciiLower (c : Char) : Char :=
  if 'A' ≤ c ∧ c ≤ 'Z' then Char.ofNat (c.toNat + 32) else c

/-- Python `str.lower()` on a whole string (ASCII). -/
def lowerStr (l : List Char) : List Char := l.map asciiLower

/-- The tagged fence marker searched for first by `YtAgent._extract_code`. -/
def pyFence : List Char := "```python".toList

/-- The plain fence marker. -/
def fenceTok : List Char := "```".toList

/-- `YtAgent._extract_code` from `src/yt_agent/agent.py`:
empty (or missing) text yields the empty string; a text containing the
tagged marker yields `text.split("```python")[1].split("```")[0].strip()`;
a text containing only a plain fence yields
`text.split("```")[1].split("```")[0].strip()`; otherwise the stripped
text itself. -/
def extractCode (text : List Char) : List Char :=
  if text = [] then []
  else if containsSub pyFence text then
    pyStrip (((splitOnL fenceTok ((splitOnL pyFence text).getD 1 [])).headD []))
  else if containsSub fenceTok text then
    pyStrip (((splitOnL fenceTok ((splitOnL fenceTok text).getD 1 [])).headD []))
  else pyStrip text

/-- The process output streams (`sys.stdout`, `sys.stderr`), identified by
reference: two `Nat` identities stand for the two stream objects. -/
structure Streams where
  out : Nat
  err : Nat
deriving DecidableEq

/-- An exception value raised by executed Python code.  `isException`
records whether its class derives from `Exception` (as opposed to deriving
only from `BaseException`, like `SystemExit` or `KeyboardInterrupt`);
Python's `except Exception` clause catches exactly those with
`isException = true`. -/
structure PyExc where
  isException : Bool
  desc : List Char
  traceText : List Char
deriving DecidableEq

/-- Outcome of running a code string: normal completion, or an exception. -/
inductive CodeOutcome where
  | ok
  | raises (e : PyExc)
deriving DecidableEq

/-- Observable behaviour of `exec` on one code string: the outcome together
with the text the code itself wrote to the (redirected) output and error
streams before finishing or raising. -/
structure RunBehavior where
  outcome : CodeOutcome
  printed : List Char
  errPrinted : List Char
deriving DecidableEq

/-- What `execute_generated_code` delivers to its caller: either a returned
triple (captured stdout, captured stderr, optional exception), or an
exception propagating out of the call. -/
inductive ExecReturn where
  | ret (stdout stderr : List Char) (exc : Option PyExc)
  | thrown (e : PyExc)
deriving DecidableEq

/-- Whether an `ExecReturn` is a normally returned result value. -/
def ExecReturn.isRet : ExecReturn → Bool
  | .ret _ _ _ => true
  | .thrown _ => false

/-- Whether the outcome of the executed code is caught by the source's
`except Exception` clause (normal completion needs no catching). -/
def outcomeCaught : CodeOutcome → Bool
  | .ok => true
  | .raises e => e.isException

/-- `execute_generated_code` from `src/yt_agent/tools/execution.py`.
The Python interpreter behind `exec` is the parameter
`interp code globals locals`; `emptyB` is the fresh empty dict substituted
for an absent binding argument.  `st` is the pair of process streams on
entry and `fresh` the pair of new in-memory buffers installed by
`capture_output`; the `finally` clause restores `st` on every exit path,
so the returned stream state is `st` whether the code completes, raises an
`Exception` (caught, traceback appended to the captured stderr), or raises
a bare `BaseException` such as `SystemExit` (not caught by
`except Exception`: it propagates). -/
def execute_generated_code {B : Type} (interp : List Char → B → B → RunBehavior)
    (emptyB : B) (code_str : List Char)
    (globals_dict locals_dict : Option B)
    (st fresh : Streams) : ExecReturn × Streams :=
  let g := globals_dict.getD emptyB
  let l := locals_dict.getD emptyB
  let r := interp code_str g l
  match r.outcome with
  | .ok => (.ret r.printed r.errPrinted none, st)
  | .raises e =>
    if e.isException then
      (.ret r.printed (r.errPrinted ++ e.traceText) (some e), st)
    else
      (.thrown e, st)

/-- Traceback text appended to the captured stderr for a caught outcome. -/
def traceOf : CodeOutcome → List Char
  | .ok => []
  | .raises e => e.traceText

/-- The structurally returned exception for a caught outcome. -/
def excOf : CodeOutcome → Option PyExc
  | .ok => none
  | .raises e => some e

/-- A remote cache entry as observed through `client.caches.list()`. -/
structure CacheEntry where
  display_name : List Char
  name : List Char
deriving DecidableEq

/-- Result of iterating `client.caches.list()`: the entries, or a raised
exception during iteration (caught by the source and treated as no match). -/
inductive RemoteList where
  | ok (caches : List CacheEntry)
  | failed
deriving DecidableEq

/-- Result of `client.caches.create(...)`: the created cache's name, or a
raised exception (caught by the source). -/
inductive RemoteCreate where
  | ok (name : List Char)
  | failed
deriving DecidableEq

/-- Observable result of `YtAgent._setup_cache`: the final
`cached_content_name`, and whether a remote `caches.create` call was
issued. -/
structure CacheSetupResult where
  cached_content_name : Option (List Char)
  createAttempted : Bool
deriving DecidableEq

/-- The cache display name `f"yt-agent-kb-{content_hash}"`, where
`md5hex` stands for `hashlib.md5(context.encode()).hexdigest()`. -/
def displayNameFor (md5hex : List Char → List Char) (context : List Char) : List Char :=
  "yt-agent-kb-".toList ++ md5hex context

/-- The source's scan of `client.caches.list()` for an entry whose
`display_name` matches, with an iteration failure caught and treated as
no existing cache. -/
def findExisting (dn : List Char) : RemoteList → Option CacheEntry
  | .ok cs => cs.find? (fun c => c.display_name == dn)
  | .failed => none

/-- `YtAgent._setup_cache` from `src/yt_agent/agent.py`: return immediately
when caching is disabled or the context is empty; reuse a listed cache with
the matching display name; skip creation when `len(context) < 1000`;
otherwise issue the creation call, storing its name on success and `None`
when it raises. -/
def setup_cache (md5hex : List Char → List Char) (use_cache : Bool)
    (context : List Char) (listRes : RemoteList) (createRes : RemoteCreate) :
    CacheSetupResult :=
  if use_cache = false ∨ context = [] then ⟨none, false⟩
  else
    match findExisting (displayNameFor md5hex context) listRes with
    | some c => ⟨some c.name, false⟩
    | none =>
      if context.length < 1000 then ⟨none, false⟩
      else
        match createRes with
        | .ok n => ⟨some n, true⟩
        | .failed => ⟨none, true⟩

/-- Result of one `client.models.generate_content` call: the response text,
or a raised exception with its message. -/
inductive RemoteGen where
  | ok (text : List Char)
  | err (msg : List Char)
deriving DecidableEq

/-- The configured remote client: its observable behaviour is the response
it produces for each prompt. -/
structure Client where
  generate : List Char → RemoteGen

/-- The prompt used when a cache is active (only the query is sent). -/
def promptCached (user_query : List Char) : List Char :=
  "USER REQUEST:\n".toList ++ user_query
    ++ "\n\nGenerate valid Python code using 'import yt'.".toList

/-- The inline-context prompt of the no-cache branch (the triple-quoted
f-string of the source, with its literal indentation). -/
def promptInline (system_instructions context user_query : List Char) : List Char :=
  "\n                ".toList ++ system_instructions
    ++ "\n                \n                CONTEXT:\n                ".toList
    ++ context
    ++ "\n                \n                USER REQUEST:\n                ".toList
    ++ user_query
    ++ "\n                \n                INSTRUCTIONS:\n                1. Generate valid Python code.\n                2. Assume 'import yt' is needed.\n                3. Output ONLY the code block.\n                ".toList

/-- Prompt selection of `YtAgent.generate_code`: the cached shape when a
cache handle is held, the inline shape otherwise. -/
def buildPrompt (cached_content_name : Option (List Char))
    (system_instructions context user_query : List Char) : List Char :=
  match cached_content_name with
  | some _ => promptCached user_query
  | none => promptInline system_instructions context user_query

/-- `YtAgent.generate_code` from `src/yt_agent/agent.py`.  The second
component counts remote generation calls issued by this invocation.
With no client configured the placeholder comment is returned at once;
otherwise one remote call is made and its text run through
`_extract_code`, a raised exception being caught and rendered as the
comment `f"# Error generating code: {e}"`. -/
def generate_code (client : Option Client) (cached_content_name : Option (List Char))
    (system_instructions context user_query : List Char) : List Char × Nat :=
  match client with
  | none => ("# Error: No LLM client available.".toList, 0)
  | some cl =>
    match cl.generate (buildPrompt cached_content_name system_instructions context user_query) with
    | .ok t => (extractCode t, 1)
    | .err m => ("# Error generating code: ".toList ++ m, 1)

/-- Observable side effects of `YtAgent.run`.  The constructor
`logAppended` is modelled from the spec's InteractionLogger contract
(one record appended per interaction); the source methods below can be
checked for whether they ever emit it. -/
inductive Effect where
  | printed (s : List Char)
  | remoteCall
  | executed (code : List Char)
  | asked
  | logAppended
deriving DecidableEq

/-- `YtAgent.run` from `src/yt_agent/agent.py` as its sequence of
observable effects: announce the query, generate code (issuing the remote
calls counted by `generate_code`), print the generated code, then either
execute directly (`auto_execute`) or prompt for confirmation and execute
only on an answer lowering to `"y"`. -/
def runAgent (client : Option Client) (cached_content_name : Option (List Char))
    (system_instructions context user_query : List Char)
    (auto_execute : Bool) (choice : List Char) : List Effect :=
  let g := generate_code client cached_content_name system_instructions context user_query
  [Effect.printed ("Agent processing: '".toList ++ user_query ++ "'...".toList)]
    ++ List.replicate g.2 Effect.remoteCall
    ++ [Effect.printed "\n--- Generated Code ---".toList,
        Effect.printed g.1,
        Effect.printed "----------------------\n".toList]
    ++ (if auto_execute then
          [Effect.printed "Executing...".toList, Effect.executed g.1]
        else
          Effect.asked ::
            (if lowerStr choice = ['y'] then [Effect.executed g.1] else []))

/-- Whether an effect is an append to the durable interaction log. -/
def isLogAppend : Effect → Bool
  | .logAppended => true
  | _ => false

/-- Number of interaction records appended to the durable log during a
sequence of effects. -/
def countLogAppends (es : List Effect) : Nat :=
  es.countP isLogAppend

/-- One knowledge-base context part,
`f"--- Context from {md_file.name} ---\n{content}\n"`. -/
def kbPart (nm content : List Char) : List Char :=
  "--- Context from ".toList ++ nm ++ " ---\n".toList ++ content ++ "\n".toList

/-- Python `"\n".join(parts)`. -/
def joinNL : List (List Char) → List Char
  | [] => []
  | [p] => p
  | p :: q :: rest => p ++ '\n' :: joinNL (q :: rest)

/-- `YtAgent._load_knowledge_base` from `src/yt_agent/agent.py`, over the
readable markdown documents as (name, content) pairs listed in the order
the filesystem enumeration (`glob("*.md")`) yields them: the source
concatenates the parts in exactly that order, applying no sorting. -/
def load_knowledge_base (files : List (List Char × List Char)) : List Char :=
  joinNL (files.map (fun f => kbPart f.1 f.2))

/-- Dropping leading matches twice equals dropping them once. -/
theorem dropWhile_dropWhile_eq (p : Char → Bool) (l : List Char) :
    (l.dropWhile p).dropWhile p = l.dropWhile p := by
  induction l with
  | nil => simp
  | cons a t ih =>
    by_cases h : p a = true
    · simp [List.dropWhile_cons, h, ih]
    · simp [List.dropWhile_cons, h]

/-- A prefix of a list with no leading matches has no leading matches. -/
theorem dropWhile_eq_self_of_prefix {p : Char → Bool} {r m : List Char}
    (hm : m.dropWhile p = m) (hr : r <+: m) : r.dropWhile p = r := by
  cases r with
  | nil => simp
  | cons c t =>
    cases m with
    | nil => exact absurd (List.prefix_nil.mp hr) (by simp)
    | cons a s =>
      have hca : c = a := (List.cons_prefix_cons.mp hr).1
      have hpa : p a = false := by
        cases hx : p a with
        | false => rfl
        | true =>
          exfalso
          rw [List.dropWhile_cons, if_pos hx] at hm
          have hlen : (s.dropWhile p).length ≤ s.length :=
            (List.dropWhile_sublist (l := s) p).length_le
          rw [hm] at hlen
          simp at hlen
      rw [List.dropWhile_cons, hca, hpa]
      simp

/-- The stripped string is a contiguous segment of the original. -/
theorem pyStrip_segment (l : List Char) : pyStrip l <:+: l := by
  unfold pyStrip
  have h1 : l.dropWhile isPySpace <:+ l := List.dropWhile_suffix _
  have h2 : ((l.dropWhile isPySpace).reverse.dropWhile isPySpace).reverse
      <+: l.dropWhile isPySpace := by
    have := List.reverse_prefix.mpr
      (List.dropWhile_suffix (l := (l.dropWhile isPySpace).reverse) isPySpace)
    simpa using this
  exact h2.isInfix.trans h1.isInfix

/-- Stripping is idempotent. -/
theorem pyStrip_pyStrip (l : List Char) : pyStrip (pyStrip l) = pyStrip l := by
  have hm : (l.dropWhile isPySpace).dropWhile isPySpace = l.dropWhile isPySpace :=
    dropWhile_dropWhile_eq _ _
  have hrpref : pyStrip l <+: l.dropWhile isPySpace := by
    unfold pyStrip
    have := List.reverse_prefix.mpr
      (List.dropWhile_suffix (l := (l.dropWhile isPySpace).reverse) isPySpace)
    simpa using this
  have h3 : (pyStrip l).dropWhile isPySpace = pyStrip l :=
    dropWhile_eq_self_of_prefix hm hrpref
  have h4 : (pyStrip l).reverse = (l.dropWhile isPySpace).reverse.dropWhile isPySpace := by
    unfold pyStrip
    simp
  show (((pyStrip l).dropWhile isPySpace).reverse.dropWhile isPySpace).reverse = pyStrip l
  rw [h3, h4, dropWhile_dropWhile_eq]
  rfl

/-- Python's `in` test agrees with list-infix. -/
theorem containsSub_iff_found {sub s : List Char} :
    containsSub sub s = true ↔ sub <:+: s := by
  induction s with
  | nil =>
    simp [containsSub, List.isEmpty_iff]
  | cons c rest ih =>
    simp [containsSub, List.isPrefixOf_iff_prefix, ih, List.infix_cons_iff]

/-- A segment of a string free of `sub` is itself free of `sub`. -/
theorem containsSub_false_of_segment {sub t s : List Char} (hts : t <:+: s)
    (h : containsSub sub s = false) : containsSub sub t = false := by
  cases hct : containsSub sub t with
  | false => rfl
  | true =>
    have := (containsSub_iff_found.mp hct).trans hts
    rw [containsSub_iff_found.mpr this] at h
    cases h

/-- A string free of a pattern is free of every extension of that pattern. -/
theorem containsSub_false_mono {p q s : List Char} (hp : p <+: q)
    (h : containsSub p s = false) : containsSub q s = false := by
  cases hq : containsSub q s with
  | false => rfl
  | true =>
    have := hp.isInfix.trans (containsSub_iff_found.mp hq)
    rw [containsSub_iff_found.mpr this] at h
    cases h

/-- Unfolding `splitOnL` on the empty string. -/
theorem splitOnL_nil (sep : List Char) : splitOnL sep [] = [[]] := by
  simp [splitOnL]

/-- Unfolding `splitOnL` at a position where the separator matches. -/
theorem splitOnL_cons_pos {sep : List Char} (d : Char) (rest : List Char)
    (h1 : sep ≠ []) (h2 : sep.isPrefixOf (d :: rest) = true) :
    splitOnL sep (d :: rest) = [] :: splitOnL sep ((d :: rest).drop sep.length) := by
  rw [splitOnL]
  rw [dif_pos ⟨h1, h2⟩]

/-- Unfolding `splitOnL` at a position where the separator does not match. -/
theorem splitOnL_cons_neg {sep : List Char} (d : Char) (rest : List Char)
    (h : ¬(sep ≠ [] ∧ sep.isPrefixOf (d :: rest) = true)) :
    splitOnL sep (d :: rest) = consHead d (splitOnL sep rest) := by
  rw [splitOnL]
  rw [dif_neg h]

/-- A split result is never the empty list of pieces. -/
theorem splitOnL_ne_nil (sep s : List Char) : splitOnL sep s ≠ [] := by
  cases s with
  | nil => simp [splitOnL_nil]
  | cons d rest =>
    by_cases h : sep ≠ [] ∧ sep.isPrefixOf (d :: rest) = true
    · rw [splitOnL_cons_pos d rest h.1 h.2]
      simp
    · rw [splitOnL_cons_neg d rest h]
      cases splitOnL sep rest <;> simp [consHead]

/-- The first piece of a split is a prefix of the split string. -/
theorem splitOnL_headD_prefix (sep s : List Char) :
    (splitOnL sep s).headD [] <+: s := by
  induction s with
  | nil => simp [splitOnL_nil]
  | cons d rest ih =>
    by_cases h : sep ≠ [] ∧ sep.isPrefixOf (d :: rest) = true
    · rw [splitOnL_cons_pos d rest h.1 h.2]
      simp
    · rw [splitOnL_cons_neg d rest h]
      cases hsp : splitOnL sep rest with
      | nil => exact absurd hsp (splitOnL_ne_nil sep rest)
      | cons piece more =>
        rw [hsp] at ih
        simp only [List.headD_cons] at ih
        simp only [consHead, List.headD_cons]
        exact List.cons_prefix_cons.mpr ⟨rfl, ih⟩

/-- The first piece of a split contains no occurrence of the separator. -/
theorem splitOnL_headD_no_sub {sep : List Char} (hne : sep ≠ []) (s : List Char) :
    containsSub sep ((splitOnL sep s).headD []) = false := by
  induction s with
  | nil =>
    simp [splitOnL_nil, containsSub, List.isEmpty_iff, hne]
  | cons d rest ih =>
    by_cases h : sep ≠ [] ∧ sep.isPrefixOf (d :: rest) = true
    · rw [splitOnL_cons_pos d rest h.1 h.2]
      simp [containsSub, List.isEmpty_iff, hne]
    · rw [splitOnL_cons_neg d rest h]
      have hnp : ¬ sep.isPrefixOf (d :: rest) = true := fun hp => h ⟨hne, hp⟩
      cases hsp : splitOnL sep rest with
      | nil => exact absurd hsp (splitOnL_ne_nil sep rest)
      | cons piece more =>
        have ihp : containsSub sep piece = false := by
          rw [hsp] at ih
          simpa using ih
        have hpref : piece <+: rest := by
          have := splitOnL_headD_prefix sep rest
          rw [hsp] at this
          simpa using this
        simp only [consHead, List.headD_cons]
        rw [containsSub]
        have hp1 : sep.isPrefixOf (d :: piece) = false := by
          cases hx : sep.isPrefixOf (d :: piece) with
          | false => rfl
          | true =>
            exfalso
            have hsp2 : sep <+: d :: piece := List.isPrefixOf_iff_prefix.mp hx
            have hsp3 : (d :: piece) <+: (d :: rest) :=
              List.cons_prefix_cons.mpr ⟨rfl, hpref⟩
            exact hnp (List.isPrefixOf_iff_prefix.mpr (hsp2.trans hsp3))
        rw [hp1, ihp]
        rfl

/-- The first piece of a split is either the whole string, or is followed
immediately by an occurrence of the separator. -/
theorem splitOnL_headD_rest (sep s : List Char) :
    (splitOnL sep s).headD [] = s ∨
      sep.isPrefixOf (s.drop ((splitOnL sep s).headD []).length) = true := by
  induction s with
  | nil =>
    left
    simp [splitOnL_nil]
  | cons d rest ih =>
    by_cases h : sep ≠ [] ∧ sep.isPrefixOf (d :: rest) = true
    · right
      rw [splitOnL_cons_pos d rest h.1 h.2]
      simpa using h.2
    · rw [splitOnL_cons_neg d rest h]
      cases hsp : splitOnL sep rest with
      | nil => exact absurd hsp (splitOnL_ne_nil sep rest)
      | cons piece more =>
        rw [hsp] at ih
        simp only [List.headD_cons] at ih
        simp only [consHead, List.headD_cons]
        cases ih with
        | inl he =>
          left
          rw [he]
        | inr hp =>
          right
          simpa using hp

/-- A string that exhibits an occurrence of `sep` contains `sep`. -/
theorem containsSub_append_self (sep a b : List Char) :
    containsSub sep (a ++ sep ++ b) = true :=
  containsSub_iff_found.mpr (List.infix_append a sep b)

/-- Splitting a string of the shape `a ++ sep ++ b` whose part before the
exhibited separator occurrence is clean — `a` followed by all but the last
character of `sep` contains no occurrence of `sep` — cuts exactly there:
the first piece is `a` and the rest is the split of `b`. -/
theorem splitOnL_append_sep {sep : List Char} (hne : sep ≠ []) (a b : List Char)
    (ha : containsSub sep (a ++ sep.dropLast) = false) :
    splitOnL sep (a ++ (sep ++ b)) = a :: splitOnL sep b := by
  induction a with
  | nil =>
    simp only [List.nil_append]
    obtain ⟨e, sep', hsep⟩ : ∃ e sep', sep = e :: sep' := by
      cases sep with
      | nil => exact absurd rfl hne
      | cons e sep' => exact ⟨e, sep', rfl⟩
    have hpre : sep.isPrefixOf (sep ++ b) = true :=
      List.isPrefixOf_iff_prefix.mpr (List.prefix_append sep b)
    have hstep : splitOnL sep (sep ++ b) = [] :: splitOnL sep ((sep ++ b).drop sep.length) := by
      rw [hsep] at hpre ⊢
      rw [List.cons_append]
      exact splitOnL_cons_pos e (sep' ++ b) (by simp) (by rw [← List.cons_append]; exact hpre)
    rw [hstep, List.drop_left]
  | cons d a' ih =>
    have ha2 : (sep.isPrefixOf (d :: (a' ++ sep.dropLast)) || containsSub sep (a' ++ sep.dropLast)) = false := by
      rw [List.cons_append] at ha
      rw [containsSub] at ha
      exact ha
    have hnotpref : sep.isPrefixOf (d :: (a' ++ sep.dropLast)) = false :=
      (Bool.or_eq_false_iff.mp ha2).1
    have ha' : containsSub sep (a' ++ sep.dropLast) = false :=
      (Bool.or_eq_false_iff.mp ha2).2
    have hcond : sep.isPrefixOf (d :: (a' ++ (sep ++ b))) = false := by
      cases hx : sep.isPrefixOf (d :: (a' ++ (sep ++ b))) with
      | false => rfl
      | true =>
        exfalso
        have hpref : sep <+: (d :: a') ++ (sep ++ b) := by
          rw [List.cons_append]
          exact List.isPrefixOf_iff_prefix.mp hx
        have hlen : sep.length ≤ ((d :: a') ++ sep.dropLast).length := by
          have h1 : 0 < sep.length := List.length_pos.mpr hne
          simp only [List.length_append, List.length_cons, List.length_dropLast]
          omega
        have htail : sep.dropLast ++ (sep.getLast hne :: b) = sep ++ b := by
          rw [← List.singleton_append, ← List.append_assoc,
            List.dropLast_append_getLast hne]
        have hsplit : (d :: a') ++ (sep ++ b)
            = ((d :: a') ++ sep.dropLast) ++ (sep.getLast hne :: b) := by
          rw [List.append_assoc, htail]
        have heq : sep = ((d :: a') ++ (sep ++ b)).take sep.length :=
          List.prefix_iff_eq_take.mp hpref
        rw [hsplit, List.take_append_of_le_length hlen] at heq
        have : sep <+: (d :: a') ++ sep.dropLast := by
          rw [List.prefix_iff_eq_take]
          exact heq
        have : sep.isPrefixOf ((d :: a') ++ sep.dropLast) = true :=
          List.isPrefixOf_iff_prefix.mpr this
        rw [List.cons_append] at this
        rw [this] at hnotpref
        cases hnotpref
    have hstep : splitOnL sep ((d :: a') ++ (sep ++ b))
        = consHead d (splitOnL sep (a' ++ (sep ++ b))) := by
      rw [List.cons_append]
      exact splitOnL_cons_neg d (a' ++ (sep ++ b)) (fun hc => by
        rw [hc.2] at hcond
        cases hcond)
    rw [hstep, ih ha']
    rfl

/-- Every value returned by `_extract_code` is free of the fence marker:
the tagged and untagged branches return a piece cut before the next fence,
and the fallback branch only strips a text that had no fence. -/
theorem extractCode_no_fence (text : List Char) :
    containsSub fenceTok (extractCode text) = false := by
  by_cases h0 : text = []
  · simp [extractCode, h0]
    rfl
  · by_cases h1 : containsSub pyFence text = true
    · simp only [extractCode, if_neg h0, h1, if_pos]
      exact containsSub_false_of_segment (pyStrip_segment _)
        (splitOnL_headD_no_sub (by decide) _)
    · by_cases h2 : containsSub fenceTok text = true
      · simp only [extractCode, if_neg h0, h1, Bool.false_eq_true, if_false, h2, if_pos]
        exact containsSub_false_of_segment (pyStrip_segment _)
          (splitOnL_headD_no_sub (by decide) _)
      · simp only [extractCode, if_neg h0, h1, h2, Bool.false_eq_true, if_false]
        exact containsSub_false_of_segment (pyStrip_segment _)
          (Bool.eq_false_iff.mpr h2)

/-- Every value returned by `_extract_code` is the empty string or a
stripped string. -/
theorem extractCode_eq_nil_or_strip (text : List Char) :
    extractCode text = [] ∨ ∃ y, extractCode text = pyStrip y := by
  by_cases h0 : text = []
  · left
    simp [extractCode, h0]
  · by_cases h1 : containsSub pyFence text = true
    · right
      exact ⟨(splitOnL fenceTok ((splitOnL pyFence text).getD 1 [])).headD [],
        by simp only [extractCode, if_neg h0, h1, if_pos]⟩
    · by_cases h2 : containsSub fenceTok text = true
      · right
        exact ⟨(splitOnL fenceTok ((splitOnL fenceTok text).getD 1 [])).headD [],
          by simp only [extractCode, if_neg h0, h1, Bool.false_eq_true, if_false, h2, if_pos]⟩
      · right
        exact ⟨text, by simp only [extractCode, if_neg h0, h1, h2, Bool.false_eq_true, if_false]⟩

/-- Applying `_extract_code` to a fence-free string only strips it. -/
theorem extractCode_of_no_fence {e : List Char}
    (hf : containsSub fenceTok e = false) : extractCode e = pyStrip e := by
  have hpy : containsSub pyFence e = false :=
    containsSub_false_mono (by decide) hf
  by_cases h0 : e = []
  · subst h0
    simp [extractCode, pyStrip]
  · simp only [extractCode, if_neg h0, hpy, Bool.false_eq_true, if_false, hf]

/-- C4: extraction is idempotent — for every input text, re-applying
`_extract_code` to the code it produced returns that code unchanged:
`extract(extract(x).code) == extract(x)`. -/
theorem c4_extract_idempotent (text : List Char) :
    extractCode (extractCode text) = extractCode text := by
  have hf : containsSub fenceTok (extractCode text) = false := extractCode_no_fence text
  rcases extractCode_eq_nil_or_strip text with h | ⟨y, hy⟩
  · rw [h]
    simp [extractCode]
  · rw [extractCode_of_no_fence hf, hy, pyStrip_pyStrip]

/-- C10: for every input text, the code string returned by
`_extract_code` contains no occurrence of the fence marker, in every
branch of the function; this is what forces re-extraction to take the
fence-free fallback branch. -/
theorem c10_extract_fence_free (text : List Char) :
    containsSub fenceTok (extractCode text) = false :=
  extractCode_no_fence text

/-- A short enough prefix of a list is a prefix of its truncation. -/
theorem prefix_take_of_le {t l : List Char} {k : Nat} (h : t <+: l)
    (hk : t.length ≤ k) : t <+: l.take k := by
  rcases h with ⟨r, rfl⟩
  refine ⟨r.take (k - t.length), ?_⟩
  rw [List.take_append_eq_append_take, List.take_of_length_le hk]

/-- C5: a text exhibiting a tagged fenced block — no tagged marker occurs
before the exhibited one, the body is fence-free, and the closing fence is
not immediately extended by a backtick or by the rest of a tagged marker —
extracts to the trimmed body of that block.  `pre` and `post` may contain
arbitrary untagged fenced blocks, so the untagged block may come before or
after the tagged one. -/
theorem c5_tagged_precedence (pre body post : List Char)
    (h1 : containsSub pyFence (pre ++ pyFence.dropLast) = false)
    (h2 : containsSub fenceTok (body ++ fenceTok.dropLast) = false)
    (h3 : pyFence.isPrefixOf (fenceTok ++ post) = false)
    (h4 : post.head? ≠ some '`') :
    extractCode (pre ++ pyFence ++ body ++ fenceTok ++ post) = pyStrip body := by
  have htext : pre ++ pyFence ++ body ++ fenceTok ++ post
      = pre ++ (pyFence ++ (body ++ (fenceTok ++ post))) := by
    simp [List.append_assoc]
  rw [htext]
  set X := body ++ (fenceTok ++ post) with hX
  have hXne : pre ++ (pyFence ++ X) ≠ [] := by
    apply List.append_ne_nil_of_right_ne_nil
    exact List.append_ne_nil_of_left_ne_nil (by decide) X
  have hcont : containsSub pyFence (pre ++ (pyFence ++ X)) = true := by
    have h := containsSub_append_self pyFence pre X
    rwa [List.append_assoc] at h
  have hsplit1 : splitOnL pyFence (pre ++ (pyFence ++ X)) = pre :: splitOnL pyFence X :=
    splitOnL_append_sep (by decide) pre X h1
  have hget : (splitOnL pyFence (pre ++ (pyFence ++ X))).getD 1 []
      = (splitOnL pyFence X).headD [] := by
    rw [hsplit1]
    cases hx : splitOnL pyFence X with
    | nil => exact absurd hx (splitOnL_ne_nil _ _)
    | cons p m => simp
  have hpp : (splitOnL pyFence X).headD [] <+: X := splitOnL_headD_prefix pyFence X
  have key : ∃ w, (splitOnL pyFence X).headD [] = body ++ (fenceTok ++ w) := by
    rcases splitOnL_headD_rest pyFence X with he | hp
    · exact ⟨post, by rw [he]⟩
    · set n := ((splitOnL pyFence X).headD []).length with hn
      have hige : body.length + 3 ≤ n := by
        by_contra hlt
        push_neg at hlt
        have hcases : n < body.length ∨ n = body.length ∨ n = body.length + 1
            ∨ n = body.length + 2 := by omega
        rcases hcases with hc | hc | hc | hc
        · have hfp : fenceTok <+: X.drop n :=
            (by decide : fenceTok <+: pyFence).trans (List.isPrefixOf_iff_prefix.mp hp)
          have hk3 : fenceTok.length ≤ body.length + 2 - n := by
            have h3' : fenceTok.length = 3 := by decide
            omega
          have hfp2 : fenceTok <+: (X.drop n).take (body.length + 2 - n) :=
            prefix_take_of_le hfp hk3
          have hdt : (X.drop n).take (body.length + 2 - n)
              = (X.take (body.length + 2)).drop n := by
            rw [List.take_drop]
            congr 2
            omega
          have hXtake : X.take (body.length + 2) = body ++ fenceTok.dropLast := by
            rw [hX, List.take_append_eq_append_take]
            congr 1
            · exact List.take_of_length_le (by omega)
            · have h2' : body.length + 2 - body.length = 2 := by omega
              rw [h2', List.take_append_of_le_length (by decide)]
              decide
          rw [hdt, hXtake] at hfp2
          have hinf : fenceTok <:+: body ++ fenceTok.dropLast :=
            hfp2.isInfix.trans (List.drop_suffix n _).isInfix
          have hcontra := containsSub_iff_found.mpr hinf
          rw [h2] at hcontra
          simp at hcontra
        · rw [hc] at hp
          rw [hX, List.drop_left] at hp
          rw [hp] at h3
          cases h3
        · have hdrop : X.drop n = '`' :: ('`' :: post) := by
            rw [hc, hX, ← List.drop_drop, List.drop_left]
            rw [show fenceTok ++ post = '`' :: ('`' :: ('`' :: post)) from rfl]
            rfl
          rw [hdrop] at hp
          have hpre := List.isPrefixOf_iff_prefix.mp hp
          rw [show pyFence = '`' :: ('`' :: ('`' :: ('p' :: ('y' :: ('t' :: ('h' :: ('o' :: ('n' :: ([] : List Char))))))))) from rfl] at hpre
          simp only [List.cons_prefix_cons, true_and] at hpre
          rcases hpre with ⟨t, ht⟩
          exact h4 (by rw [← ht]; rfl)
        · have hdrop : X.drop n = '`' :: post := by
            rw [hc, hX, ← List.drop_drop, List.drop_left]
            rw [show fenceTok ++ post = '`' :: ('`' :: ('`' :: post)) from rfl]
            rfl
          rw [hdrop] at hp
          have hpre := List.isPrefixOf_iff_prefix.mp hp
          rw [show pyFence = '`' :: ('`' :: ('`' :: ('p' :: ('y' :: ('t' :: ('h' :: ('o' :: ('n' :: ([] : List Char))))))))) from rfl] at hpre
          simp only [List.cons_prefix_cons, true_and] at hpre
          rcases hpre with ⟨t, ht⟩
          exact h4 (by rw [← ht]; rfl)
      have hbfX : body ++ fenceTok <+: X := by
        rw [hX, ← List.append_assoc]
        exact List.prefix_append _ _
      have hlenle : (body ++ fenceTok).length ≤ n := by
        have h3' : fenceTok.length = 3 := by decide
        simp only [List.length_append]
        omega
      have hbfp : body ++ fenceTok <+: (splitOnL pyFence X).headD [] :=
        List.prefix_of_prefix_length_le hbfX hpp hlenle
      rcases hbfp with ⟨w, hw⟩
      exact ⟨w, by rw [← hw, List.append_assoc]⟩
  rcases key with ⟨w, hw⟩
  have hsplit2 : splitOnL fenceTok ((splitOnL pyFence X).headD [])
      = body :: splitOnL fenceTok w := by
    rw [hw]
    exact splitOnL_append_sep (by decide) body w h2
  simp only [extractCode]
  rw [if_neg hXne, if_pos hcont, hget, hsplit2]
  simp

/-- C3: after every call to `execute_generated_code`, whatever the binding
scopes and whatever the executed code does (complete, raise a caught
`Exception`, or raise an uncaught `BaseException`), the process streams are
the identical objects they were before the call: the `finally` clause of
`capture_output` restores them on every exit path. -/
theorem c3_stream_restoration {B : Type} (interp : List Char → B → B → RunBehavior)
    (emptyB : B) (code_str : List Char) (globals_dict locals_dict : Option B)
    (st fresh : Streams) :
    (execute_generated_code interp emptyB code_str globals_dict locals_dict st fresh).2
      = st := by
  simp only [execute_generated_code]
  split
  · rfl
  · split
    · rfl
    · rfl

/-- C2 (amended): for every code string whose execution outcome is caught
by the `except Exception` clause — normal completion, or an exception
deriving from `Exception`, which covers runtime errors, division by zero
and syntax errors — `execute_generated_code` returns a result triple and
does not propagate: the captured stdout is what the code printed, the
captured stderr is what the code wrote to stderr followed by the full
traceback, and the exception is also returned structurally. -/
theorem c2_execute_catches_exceptions {B : Type}
    (interp : List Char → B → B → RunBehavior) (emptyB : B) (code_str : List Char)
    (globals_dict locals_dict : Option B) (st fresh : Streams)
    (h : outcomeCaught
      (interp code_str (globals_dict.getD emptyB) (locals_dict.getD emptyB)).outcome
        = true) :
    (execute_generated_code interp emptyB code_str globals_dict locals_dict st fresh).1
      = .ret (interp code_str (globals_dict.getD emptyB) (locals_dict.getD emptyB)).printed
          ((interp code_str (globals_dict.getD emptyB) (locals_dict.getD emptyB)).errPrinted
            ++ traceOf (interp code_str (globals_dict.getD emptyB)
                (locals_dict.getD emptyB)).outcome)
          (excOf (interp code_str (globals_dict.getD emptyB)
              (locals_dict.getD emptyB)).outcome) := by
  simp only [execute_generated_code]
  split
  · rename_i heq
    rw [heq]
    simp [traceOf, excOf]
  · rename_i e heq
    rw [heq] at h
    simp only [outcomeCaught] at h
    rw [heq]
    simp [traceOf, excOf, h]

/-- The exception raised by `exec("raise SystemExit()")`: `SystemExit`
derives from `BaseException` but not from `Exception`. -/
def sysExitExc : PyExc :=
  { isException := false
  , desc := "SystemExit".toList
  , traceText := [] }

/-- Modelled Python semantics of `exec` on the string
`"raise SystemExit()"`: it raises `SystemExit` and prints nothing. -/
def seInterp : List Char → Unit → Unit → RunBehavior :=
  fun _ _ _ => { outcome := .raises sysExitExc, printed := [], errPrinted := [] }

/-- C2 counterexample: on the code string `"raise SystemExit()"` the
`except Exception` clause of `execute_generated_code` does not match, so
the call does not return a result value — the exception propagates to the
caller, refuting the unrestricted no-propagation claim. -/
theorem c2_counterexample :
    ExecReturn.isRet
      (execute_generated_code seInterp () "raise SystemExit()".toList
        none none ⟨0, 1⟩ ⟨2, 3⟩).1 = false := by
  decide

/-- A division-by-zero exception: `ZeroDivisionError` derives from
`Exception`, so the source's clause catches it. -/
def zdExc : PyExc :=
  { isException := true
  , desc := "ZeroDivisionError: division by zero".toList
  , traceText := "Traceback (most recent call last):\nZeroDivisionError: division by zero\n".toList }

/-- Modelled Python semantics of `exec` on the string `"1/0"`: it raises
`ZeroDivisionError` and prints nothing. -/
def zdInterp : List Char → Unit → Unit → RunBehavior :=
  fun _ _ _ => { outcome := .raises zdExc, printed := [], errPrinted := [] }

/-- Witness for C2 at the concrete code string `"1/0"`. -/
theorem c2_witness :
    outcomeCaught
      (zdInterp "1/0".toList ((none : Option Unit).getD ())
        ((none : Option Unit).getD ())).outcome = true
    ∧ (execute_generated_code zdInterp () "1/0".toList none none ⟨0, 1⟩ ⟨2, 3⟩).1
        = .ret (zdInterp "1/0".toList ((none : Option Unit).getD ())
              ((none : Option Unit).getD ())).printed
            ((zdInterp "1/0".toList ((none : Option Unit).getD ())
                ((none : Option Unit).getD ())).errPrinted
              ++ traceOf (zdInterp "1/0".toList ((none : Option Unit).getD ())
                  ((none : Option Unit).getD ())).outcome)
            (excOf (zdInterp "1/0".toList ((none : Option Unit).getD ())
                ((none : Option Unit).getD ())).outcome) :=
  ⟨by decide,
    c2_execute_catches_exceptions zdInterp () "1/0".toList none none ⟨0, 1⟩ ⟨2, 3⟩
      (by decide)⟩

/-- C6: with caching enabled, a non-empty context and no remote cache
entry matching the derived display name, `_setup_cache` attempts creation
iff the context is at least 1000 characters long; below the threshold it
ends with no cache handle and no remote creation call. -/
theorem c6_threshold_law (md5hex : List Char → List Char) (use_cache : Bool)
    (context : List Char) (listRes : RemoteList) (createRes : RemoteCreate)
    (h1 : use_cache = true) (h2 : context ≠ [])
    (h3 : findExisting (displayNameFor md5hex context) listRes = none) :
    ((setup_cache md5hex use_cache context listRes createRes).createAttempted = true
      ↔ 1000 ≤ context.length)
    ∧ (context.length < 1000 →
        setup_cache md5hex use_cache context listRes createRes
          = ⟨none, false⟩) := by
  subst h1
  unfold setup_cache
  rw [if_neg (by simp [h2]), h3]
  by_cases hlen : context.length < 1000
  · rw [if_pos hlen]
    constructor
    · constructor
      · intro hfalse
        cases hfalse
      · intro hge
        omega
    · intro _
      rfl
  · rw [if_neg hlen]
    constructor
    · cases createRes <;> simp <;> omega
    · intro hlt
      exact absurd hlt hlen

/-- Witness for C6 at a concrete 5-character context with an empty remote
cache listing. -/
theorem c6_witness :
    "short".toList ≠ []
    ∧ findExisting (displayNameFor (fun _ => []) "short".toList) (RemoteList.ok []) = none
    ∧ setup_cache (fun _ => []) true "short".toList (RemoteList.ok []) (RemoteCreate.ok ['c'])
        = ⟨none, false⟩ :=
  ⟨by decide, by decide,
    (c6_threshold_law (fun _ => []) true "short".toList (RemoteList.ok [])
      (RemoteCreate.ok ['c']) rfl (by decide) (by decide)).2 (by decide)⟩

/-- C7: with no configured client, `generate_code` returns the
explanatory placeholder comment for every query: a non-empty code string
containing the marker word `Error`, with zero remote calls issued, and
(being a total function of its inputs) without raising. -/
theorem c7_degraded_mode (cached_content_name : Option (List Char))
    (system_instructions context user_query : List Char) :
    generate_code none cached_content_name system_instructions context user_query
        = ("# Error: No LLM client available.".toList, 0)
    ∧ (generate_code none cached_content_name system_instructions context user_query).1 ≠ []
    ∧ containsSub "Error".toList
        (generate_code none cached_content_name system_instructions context user_query).1
          = true := by
  refine ⟨rfl, ?_, ?_⟩
  · show "# Error: No LLM client available.".toList ≠ []
    decide
  · show containsSub "Error".toList "# Error: No LLM client available.".toList = true
    decide

/-- C8: whenever the remote generation call raises with message `m`,
`generate_code` does not propagate: it returns the inert comment string
`"# Error generating code: " ++ m` (one remote call was made), and that
string is a comment — its first character is `#`. -/
theorem c8_generation_failure (cl : Client) (cached_content_name : Option (List Char))
    (system_instructions context user_query m : List Char)
    (h : cl.generate
        (buildPrompt cached_content_name system_instructions context user_query)
          = .err m) :
    generate_code (some cl) cached_content_name system_instructions context user_query
        = ("# Error generating code: ".toList ++ m, 1)
    ∧ ((generate_code (some cl) cached_content_name system_instructions context
          user_query).1).head? = some '#' := by
  simp only [generate_code]
  rw [h]
  exact ⟨rfl, rfl⟩

/-- A client whose remote call always raises with message `boom`. -/
def failClient : Client := ⟨fun _ => .err "boom".toList⟩

/-- Witness for C8 at a concrete failing client and query. -/
theorem c8_witness :
    failClient.generate (buildPrompt none [] [] "q".toList) = .err "boom".toList
    ∧ (generate_code (some failClient) none [] [] "q".toList
          = ("# Error generating code: ".toList ++ "boom".toList, 1)
        ∧ ((generate_code (some failClient) none [] [] "q".toList).1).head? = some '#') :=
  ⟨rfl, c8_generation_failure failClient none [] [] "q".toList "boom".toList rfl⟩

/-- C1 (refuting theorem): for every client, cache state, query,
`auto_execute` flag and confirmation answer, `YtAgent.run` appends zero
records to the durable interaction log — no path of the method calls any
logging routine, although the spec requires exactly one record per
interaction. -/
theorem c1_run_never_logs (client : Option Client)
    (cached_content_name : Option (List Char))
    (system_instructions context user_query : List Char)
    (auto_execute : Bool) (choice : List Char) :
    countLogAppends
      (runAgent client cached_content_name system_instructions context user_query
        auto_execute choice) = 0 := by
  have hrep : ∀ k : Nat,
      (List.replicate k Effect.remoteCall).countP isLogAppend = 0 := by
    intro k
    induction k with
    | zero => rfl
    | succ k ih => simp [List.replicate_succ, List.countP_cons, ih, isLogAppend]
  unfold runAgent countLogAppends
  simp only [List.countP_append, List.countP_cons, List.countP_nil, hrep, isLogAppend]
  by_cases hae : auto_execute = true
  · simp [hae, isLogAppend]
  · simp only [hae, Bool.false_eq_true, if_false]
    by_cases hch : lowerStr choice = ['y'] <;> simp [hch, isLogAppend]

/-- C9 (refuting theorem): the knowledge-base loader is not determined by
the document set — the same two readable documents, listed by the
filesystem enumeration in the two possible orders, are permutations of one
another yet produce different Context strings (so the derived hash and
display name differ as well). -/
theorem c9_order_dependent :
    [("a.md".toList, "A".toList), ("b.md".toList, "B".toList)].Perm
        [("b.md".toList, "B".toList), ("a.md".toList, "A".toList)]
    ∧ load_knowledge_base [("a.md".toList, "A".toList), ("b.md".toList, "B".toList)]
        ≠ load_knowledge_base
            [("b.md".toList, "B".toList), ("a.md".toList, "A".toList)] := by
  constructor
  · decide
  · decide

/-- Witness for C5 at a concrete text holding an untagged block before the
tagged one and another untagged block after it. -/
theorem c5_witness :
    containsSub pyFence ("Intro:\n```\nu = 0\n```\nnow\n".toList ++ pyFence.dropLast)
        = false
    ∧ containsSub fenceTok ("\nbar = 1\n".toList ++ fenceTok.dropLast) = false
    ∧ pyFence.isPrefixOf (fenceTok ++ "\nand ```\nv = 2\n``` end".toList) = false
    ∧ ("\nand ```\nv = 2\n``` end".toList).head? ≠ some '`'
    ∧ extractCode ("Intro:\n```\nu = 0\n```\nnow\n".toList ++ pyFence
          ++ "\nbar = 1\n".toList ++ fenceTok ++ "\nand ```\nv = 2\n``` end".toList)
        = pyStrip "\nbar = 1\n".toList :=
  ⟨by decide, by decide, by decide, by decide,
    c5_tagged_precedence "Intro:\n```\nu = 0\n```\nnow\n".toList "\nbar = 1\n".toList
      "\nand ```\nv = 2\n``` end".toList
      (by decide) (by decide) (by decide) (by decide)⟩
